import Mathlib

/-!
Shallow embedding of src/src/rsa/padding.rs: RSA PKCS#1 v1.5 and PSS
signature padding with the MGF1 mask generation function, per RFC 3447.

Bytes are modelled as Nat values and byte buffers as List Nat.  Fallible
operations return an RsaResult: RsaResult.unspecified models
Err(error::Unspecified), the single undifferentiated error value of the crate,
and RsaResult.panic models a Rust panic (a failed assert! or assert_eq!,
a failed debug_assert! when debug assertions are enabled, arithmetic
underflow, out-of-bounds indexing or slicing, or copy_from_slice with
mismatched lengths).  Code guarded by debug_assert!, which is compiled
only into builds with debug assertions enabled, is modelled by an explicit
dbg : Bool parameter on the encoding functions that contain such guards.
-/

/-- Outcome of a fallible operation: Ok, Err(error::Unspecified), or panic. -/
inductive RsaResult (α : Type) where
  | ok : α → RsaResult α
  | unspecified : RsaResult α
  | panic : RsaResult α
  deriving DecidableEq

/-- Model of digest::Algorithm together with the one-shot function
digest::digest (digest::Context hashes the concatenation of its updates,
so it is the same function applied to the concatenated input).  The
hash_len field is the digest contract: output always has output_len bytes. -/
structure DigestAlg where
  output_len : Nat
  hash : List Nat → List Nat
  hash_len : ∀ m, (hash m).length = output_len

/-- Model of rand::SecureRandom.  fill n models filling a buffer of n bytes:
none models Err(error::Unspecified), some s models success, in which case
the buffer holds exactly the n bytes s (field fill_len is the contract of
SecureRandom::fill, which fills the whole buffer it is given). -/
structure RandomSource where
  fill : Nat → Option (List Nat)
  fill_len : ∀ n s, fill n = some s → s.length = n

/-- Big-endian 4-byte encoding of a 32-bit counter
(polyfill::slice::be_u8_from_u32). -/
def be32 (n : Nat) : List Nat :=
  [n / 2 ^ 24 % 256, n / 2 ^ 16 % 256, n / 2 ^ 8 % 256, n % 256]

/-- In-place loop { for j < xs.length, buf[i + j] ^= xs[j] } on a byte
buffer, as used by the PSS code to XOR a region into a buffer.  (In every
use in this file the region [i, i + xs.length) lies inside the buffer,
matching the source, where an out-of-range index would panic.) -/
def xorRegion : List Nat → Nat → List Nat → List Nat
  | buf, _, [] => buf
  | [], _, _ => []
  | b :: buf, 0, x :: xs => (b ^^^ x) :: xorRegion buf 0 xs
  | b :: buf, i + 1, xs => b :: xorRegion buf (i) xs

/-- In-place copy_from_slice { for j < xs.length, buf[i + j] = xs[j] }.
(In every use in this file the region lies inside the buffer.) -/
def writeRegion : List Nat → Nat → List Nat → List Nat
  | buf, _, [] => buf
  | [], _, _ => []
  | _ :: buf, 0, x :: xs => x :: writeRegion buf 0 xs
  | b :: buf, i + 1, xs => b :: writeRegion buf (i) xs

/-- Concatenation, in counter order 0, 1, ..., k-1, of the full MGF1 blocks
Hash(seed || be32 c); this is the main loop of mgf1, which writes block i
at mask[i * digest_len .. (i+1) * digest_len]. -/
def mgf1Blocks (alg : DigestAlg) (seed : List Nat) : Nat → List Nat
  | 0 => []
  | k + 1 => mgf1Blocks alg seed k ++ alg.hash (seed ++ be32 k)

/-- Mask generation function MGF1 (fn mgf1 in padding.rs), producing a mask
of maskLen bytes from a seed.  Panic cases, in source order:
mask.len() - 1 underflows when maskLen = 0; ctr_max = (mask.len() - 1) /
digest_len divides by zero when the digest length is 0; assert!(ctr_max <=
u32::MAX); and the final copy_from_slice of digest[..last_block_len] into
mask[ctr_max * digest_len..] panics when the two lengths differ, i.e.
whenever maskLen - ctrMax * d differs from maskLen % d (which happens
exactly when the digest length divides maskLen). -/
def mgf1 (alg : DigestAlg) (seed : List Nat) (maskLen : Nat) : RsaResult (List Nat) :=
  if maskLen = 0 then .panic
  else if alg.output_len = 0 then .panic
  else
    let d := alg.output_len
    let ctrMax := (maskLen - 1) / d
    if 4294967295 < ctrMax then .panic
    else
      let lastLen := maskLen % d
      if maskLen - ctrMax * d ≠ lastLen then .panic
      else .ok (mgf1Blocks alg seed ctrMax ++ (alg.hash (seed ++ be32 ctrMax)).take lastLen)

/-- The struct PKCS1: a digest algorithm plus its fixed DigestInfo DER
bytes (field digestinfo_prefix in the source). -/
structure PKCS1 where
  digest_alg : DigestAlg
  digestInfo : List Nat

/-- PKCS#1 v1.5 signature padding, impl Encoding for PKCS1 (EMSA-PKCS1-v1_5).
Checks, in source order: assert_eq!(out.len() * 8, bit_len);
debug_assert!(out.len() >= digest_len + 11) (only when debug assertions are
enabled); and when out.len() < digest_len + 3 the subtraction
out.len() - digest_len - 3 computing pad_len underflows, after which the
0xff loop indexes out of bounds, so the call panics in release builds too.
Otherwise every byte of out is overwritten, left to right, with
0x00 || 0x01 || 0xff * pad_len || 0x00 || digestinfo_prefix || Hash(msg),
and the random source argument is never used. -/
def PKCS1.encode (self : PKCS1) (dbg : Bool) (msg : List Nat) (out : List Nat)
    (bitLen : Nat) (_rng : RandomSource) : RsaResult (List Nat) :=
  if out.length * 8 ≠ bitLen then .panic
  else
    let digestLen := self.digestInfo.length + self.digest_alg.output_len
    if dbg ∧ out.length < digestLen + 11 then .panic
    else if out.length < digestLen + 3 then .panic
    else
      let padLen := out.length - digestLen - 3
      .ok ([0, 1] ++ List.replicate padLen 0xff ++ [0] ++ self.digestInfo ++
           self.digest_alg.hash msg)

/-- The 0xff run loop inside PKCS1::verify: reads bytes, counting 0xff
bytes, until a 0x00 terminator (returning the count and the remaining
bytes); any other byte, or running out of input, is Err(Unspecified). -/
def ffRun : List Nat → Option (Nat × List Nat)
  | [] => none
  | b :: rest =>
    if b = 0xff then (ffRun rest).map (fun p => (p.1 + 1, p.2))
    else if b = 0x00 then some (0, rest)
    else none

/-- PKCS#1 v1.5 verification, impl Verification for PKCS1.  Parses the
untrusted encoded block inside read_all (so any leftover bytes are an
error): byte 0x00, byte 0x01, a run of at least 8 bytes of 0xff, a 0x00
terminator, the DigestInfo bytes, then Hash(msg); every failure is
Err(error::Unspecified).  The bit_len argument is unused (named _bit_len
in the source). -/
def PKCS1.verify (self : PKCS1) (msg : List Nat) (encoded : List Nat)
    (_bitLen : Nat) : RsaResult Unit :=
  match encoded with
  | b0 :: b1 :: rest =>
    if b0 ≠ 0 ∨ b1 ≠ 1 then .unspecified
    else
      match ffRun rest with
      | none => .unspecified
      | some (psLen, rest2) =>
        if psLen < 8 then .unspecified
        else if rest2.length < self.digestInfo.length then .unspecified
        else if rest2.take self.digestInfo.length ≠ self.digestInfo then .unspecified
        else
          let rest3 := rest2.drop self.digestInfo.length
          if rest3.length < self.digest_alg.output_len then .unspecified
          else if rest3.take self.digest_alg.output_len ≠ self.digest_alg.hash msg then
            .unspecified
          else if rest3.drop self.digest_alg.output_len ≠ [] then .unspecified
          else .ok ()
  | _ => .unspecified

/-- The struct PSS: a digest algorithm only (no DigestInfo bytes). -/
structure PSS where
  digest_alg : DigestAlg

/-- MAX_SALT_LEN = 512 / 8. -/
def MAX_SALT_LEN : Nat := 64

/-- MAX_OUTPUT_LEN = 8192 / 8. -/
def MAX_OUTPUT_LEN : Nat := 1024

/-- PSS_PREFIX_ZEROS: the eight zero bytes hashed before m_hash and salt. -/
def PSS_PREFIX_ZEROS : List Nat := List.replicate 8 0

/-- The top byte mask of PSS::verify: (0xff u16 >> (1 + bit_len % 8)) as u8
(in Rust, % and + bind tighter than >>). -/
def pssTopByteMask (bitLen : Nat) : Nat := 0xff >>> (1 + bitLen % 8)

/-- PSS signature padding, impl Encoding for PSS (EMSA-PSS encode).
In source order: debug_assert!(out.len() <= MAX_OUTPUT_LEN) (debug builds
only); assert_eq!(bit_len, em_len * 8); m_hash = Hash(msg); Err if
em_len < 2 + 2 * digest_len; slicing the MAX_SALT_LEN salt array with
salt[..digest_len] panics if digest_len > 64; rng.fill(salt) with failure
propagated by try!; h_hash = Hash(eight zeros || m_hash || salt); the MGF1
mask is written into out[..db_len]; 0x01 and the salt are XORed in at
pad_len and pad_len + 1; out[0] &= 0x7f; h_hash and trailer 0xbc are
written after the masked region. -/
def PSS.encode (self : PSS) (dbg : Bool) (msg : List Nat) (out : List Nat)
    (bitLen : Nat) (rng : RandomSource) : RsaResult (List Nat) :=
  if dbg ∧ MAX_OUTPUT_LEN < out.length then .panic
  else
    let d := self.digest_alg.output_len
    let emLen := out.length
    if bitLen ≠ emLen * 8 then .panic
    else
      let mHash := self.digest_alg.hash msg
      if emLen < 2 + 2 * d then .unspecified
      else if MAX_SALT_LEN < d then .panic
      else
        match rng.fill d with
        | none => .unspecified
        | some salt =>
          let hHash := self.digest_alg.hash (PSS_PREFIX_ZEROS ++ mHash ++ salt)
          let dbLen := emLen - d - 1
          match mgf1 self.digest_alg hHash dbLen with
          | .panic => .panic
          | .unspecified => .unspecified
          | .ok mask =>
            let padLen := dbLen - d - 1
            let buf1 := writeRegion out 0 mask
            let buf2 := xorRegion buf1 padLen [0x01]
            let buf3 := xorRegion buf2 (padLen + 1) salt
            let buf4 := buf3.set 0 (buf3.getD 0 0 &&& 0x7f)
            let buf5 := writeRegion buf4 dbLen hHash
            .ok (writeRegion buf5 (dbLen + d) [0xbc])

/-- Steps 7, 8 and 9 of PSS::verify: the recovered data block DB, obtained
by XORing the MGF1 mask with masked_db in place (db[0] ^= b for the first
byte read, db[i] ^= the following bytes) and then clearing the top bits of
the first byte with db[0] &= top_byte_mask. -/
def pssDb (mask maskedDb : List Nat) (bitLen : Nat) : List Nat :=
  let db1 := xorRegion mask 0 maskedDb
  db1.set 0 (db1.getD 0 0 &&& pssTopByteMask bitLen)

/-- PSS verification, impl Verification for PSS (EMSA-PSS verify).
The assert_eq!(encoded.len(), em_len) with em_len = 1 + (bit_len - 1) / 8
panics on a length mismatch; for bit_len = 0 the subtraction bit_len - 1
underflows (panicking at once with debug assertions, and otherwise wrapping
to an em_len larger than any real buffer so that the assertion fails), so
bit_len = 0 is modelled as a panic.  Then, inside read_all over the
untrusted block: Err if em_len < 2 + 2 * digest_len; split into masked_db,
h_hash and the trailer byte, Err if the trailer is not 0xbc; slicing the
MAX_OUTPUT_LEN db array with db[..db_len] panics if db_len > 1024; the
MGF1 mask of h_hash is XORed with masked_db (after Err if the first byte
has bits set above the top byte mask); db[0] &= top_byte_mask; Err if any
of the pad_len leading db bytes is nonzero or the separator byte is not
0x01; finally Err unless h_hash equals Hash(eight zeros || m_hash || salt)
for the recovered salt. -/
def PSS.verify (self : PSS) (msg : List Nat) (encoded : List Nat)
    (bitLen : Nat) : RsaResult Unit :=
  if bitLen = 0 then .panic
  else
    let emLen := 1 + (bitLen - 1) / 8
    if encoded.length ≠ emLen then .panic
    else
      let topByteMask := pssTopByteMask bitLen
      let d := self.digest_alg.output_len
      let mHash := self.digest_alg.hash msg
      if emLen < 2 + 2 * d then .unspecified
      else
        let dbLen := emLen - d - 1
        let maskedDb := encoded.take dbLen
        let hHash := (encoded.drop dbLen).take d
        if encoded.getD (dbLen + d) 0 ≠ 0xbc then .unspecified
        else if MAX_OUTPUT_LEN < dbLen then .panic
        else
          match mgf1 self.digest_alg hHash dbLen with
          | .panic => .panic
          | .unspecified => .unspecified
          | .ok mask =>
            if maskedDb.getD 0 0 &&& (0xff ^^^ topByteMask) ≠ 0 then .unspecified
            else
              let db2 := pssDb mask maskedDb bitLen
              let padLen := dbLen - d - 1
              if ¬ (List.range padLen).all (fun i => db2.getD i 0 = 0) then .unspecified
              else if db2.getD padLen 0 ≠ 1 then .unspecified
              else
                let salt := db2.drop (dbLen - d)
                if hHash ≠ self.digest_alg.hash (PSS_PREFIX_ZEROS ++ mHash ++ salt) then
                  .unspecified
                else .ok ()

/-- DigestInfo DER bytes for SHA-1 (SHA1_PKCS1_DIGESTINFO_PREFIX).  The
der::Tag byte values (Sequence 0x30, OID 0x06, Null 0x05, OctetString
0x04) come from the DER standard; der.rs is outside this repository. -/
def SHA1_PKCS1_DIGESTINFO : List Nat :=
  [0x30, 33, 0x30, 9, 0x06, 5, 0x2b, 0x0e, 0x03, 0x02, 0x1a, 0x05, 0, 0x04, 20]

/-- DigestInfo DER bytes for SHA-256 (SHA256_PKCS1_DIGESTINFO_PREFIX). -/
def SHA256_PKCS1_DIGESTINFO : List Nat :=
  [0x30, 49, 0x30, 13, 0x06, 9,
   0x60, 0x86, 0x48, 0x01, 0x65, 0x03, 0x04, 0x02, 0x01, 0x05, 0, 0x04, 32]

/-- DigestInfo DER bytes for SHA-384 (SHA384_PKCS1_DIGESTINFO_PREFIX). -/
def SHA384_PKCS1_DIGESTINFO : List Nat :=
  [0x30, 65, 0x30, 13, 0x06, 9,
   0x60, 0x86, 0x48, 0x01, 0x65, 0x03, 0x04, 0x02, 0x02, 0x05, 0, 0x04, 48]

/-- DigestInfo DER bytes for SHA-512 (SHA512_PKCS1_DIGESTINFO_PREFIX). -/
def SHA512_PKCS1_DIGESTINFO : List Nat :=
  [0x30, 81, 0x30, 13, 0x06, 9,
   0x60, 0x86, 0x48, 0x01, 0x65, 0x03, 0x04, 0x02, 0x03, 0x05, 0, 0x04, 64]

/-- The masked data block produced by PSS::encode inside out[..db_len]:
the MGF1 mask with 0x01 XORed in at pad_len, the salt XORed in at
pad_len + 1, and the top bit of byte 0 cleared (out[0] &= 0x7f).  This is
the first db_len bytes of the encoded output. -/
def pssMaskedDb (mask salt : List Nat) (padLen : Nat) : List Nat :=
  let t := xorRegion (xorRegion mask padLen [0x01]) (padLen + 1) salt
  t.set 0 (t.getD 0 0 &&& 0x7f)

/-! Concrete digest algorithms and random sources used to evaluate the
embedding at specific inputs.  The real digest functions (SHA-1/256/384/512)
are external collaborators of this repository, so witnesses instantiate the
digest parameter with small concrete functions satisfying the same
output-length contract. -/

/-- Test digest with 2-byte output, constantly [7, 9]. -/
def algT2 : DigestAlg := ⟨2, fun _ => [7, 9], fun _ => rfl⟩

/-- Test digest with 2-byte output, constantly [0, 0]. -/
def algZ2 : DigestAlg := ⟨2, fun _ => [0, 0], fun _ => rfl⟩

/-- Test digest with 2-byte output, constantly [255, 0]: its MGF1 mask has
the top bit of the first byte set. -/
def alg255 : DigestAlg := ⟨2, fun _ => [255, 0], fun _ => rfl⟩

/-- Test digest with 32-byte output, constantly thirty-two 5 bytes. -/
def algW32 : DigestAlg := ⟨32, fun _ => List.replicate 32 5, fun _ => List.length_replicate _ _⟩

/-- Random source that always succeeds with zero bytes. -/
def zeroRng : RandomSource := ⟨fun n => some (List.replicate n 0), by
  intro n s h
  cases h
  exact List.length_replicate _ _⟩

/-- Random source whose fill always fails (entropy unavailable). -/
def failRng : RandomSource := ⟨fun _ => none, by intro n s h; cases h⟩

/-! Helper lemmas about the buffer-region operations. -/

theorem xorRegion_nil_left (i : Nat) (xs : List Nat) : xorRegion [] i xs = [] := by
  cases xs <;> rfl

theorem xorRegion_nil_right (buf : List Nat) (i : Nat) : xorRegion buf i [] = buf := by
  cases buf with
  | nil => rfl
  | cons b buf => cases i <;> rfl

theorem xorRegion_cons_zero (b x : Nat) (buf xs : List Nat) :
    xorRegion (b :: buf) 0 (x :: xs) = (b ^^^ x) :: xorRegion buf 0 xs := rfl

theorem xorRegion_cons_succ (b : Nat) (buf : List Nat) (i : Nat) (x : Nat) (xs : List Nat) :
    xorRegion (b :: buf) (i + 1) (x :: xs) = b :: xorRegion buf i (x :: xs) := rfl

theorem writeRegion_nil_left (i : Nat) (xs : List Nat) : writeRegion [] i xs = [] := by
  cases xs <;> rfl

theorem writeRegion_nil_right (buf : List Nat) (i : Nat) : writeRegion buf i [] = buf := by
  cases buf with
  | nil => rfl
  | cons b buf => cases i <;> rfl

theorem writeRegion_cons_zero (b x : Nat) (buf xs : List Nat) :
    writeRegion (b :: buf) 0 (x :: xs) = x :: writeRegion buf 0 xs := rfl

theorem writeRegion_cons_succ (b : Nat) (buf : List Nat) (i : Nat) (x : Nat) (xs : List Nat) :
    writeRegion (b :: buf) (i + 1) (x :: xs) = b :: writeRegion buf i (x :: xs) := rfl

theorem length_xorRegion (buf : List Nat) (i : Nat) (xs : List Nat) :
    (xorRegion buf i xs).length = buf.length := by
  induction buf generalizing i xs with
  | nil => rw [xorRegion_nil_left]
  | cons b buf ih =>
    cases xs with
    | nil => rw [xorRegion_nil_right]
    | cons x xs =>
      cases i with
      | zero => rw [xorRegion_cons_zero]; simp [ih]
      | succ i => rw [xorRegion_cons_succ]; simp [ih]

theorem length_writeRegion (buf : List Nat) (i : Nat) (xs : List Nat) :
    (writeRegion buf i xs).length = buf.length := by
  induction buf generalizing i xs with
  | nil => rw [writeRegion_nil_left]
  | cons b buf ih =>
    cases xs with
    | nil => rw [writeRegion_nil_right]
    | cons x xs =>
      cases i with
      | zero => rw [writeRegion_cons_zero]; simp [ih]
      | succ i => rw [writeRegion_cons_succ]; simp [ih]

theorem xorRegion_zero_eq (buf xs : List Nat) :
    xorRegion buf 0 xs = List.zipWith (· ^^^ ·) buf xs ++ buf.drop xs.length := by
  induction buf generalizing xs with
  | nil => rw [xorRegion_nil_left]; simp
  | cons b buf ih =>
    cases xs with
    | nil => rw [xorRegion_nil_right]; simp
    | cons x xs => rw [xorRegion_cons_zero, ih]; simp

theorem writeRegion_zero_eq (buf xs : List Nat) :
    writeRegion buf 0 xs = xs.take buf.length ++ buf.drop xs.length := by
  induction buf generalizing xs with
  | nil => rw [writeRegion_nil_left]; simp
  | cons b buf ih =>
    cases xs with
    | nil => rw [writeRegion_nil_right]; simp
    | cons x xs => rw [writeRegion_cons_zero, ih]; simp

theorem xorRegion_append_ge (a b : List Nat) (i : Nat) (xs : List Nat) :
    xorRegion (a ++ b) (a.length + i) xs = a ++ xorRegion b i xs := by
  induction a generalizing i with
  | nil => simp
  | cons c a ih =>
    cases xs with
    | nil => rw [xorRegion_nil_right, xorRegion_nil_right]
    | cons x xs =>
      have hl : (c :: a).length + i = (a.length + i) + 1 := by simp; omega
      rw [hl, List.cons_append, xorRegion_cons_succ, ih, List.cons_append]

theorem writeRegion_append_ge (a b : List Nat) (i : Nat) (xs : List Nat) :
    writeRegion (a ++ b) (a.length + i) xs = a ++ writeRegion b i xs := by
  induction a generalizing i with
  | nil => simp
  | cons c a ih =>
    cases xs with
    | nil => rw [writeRegion_nil_right, writeRegion_nil_right]
    | cons x xs =>
      have hl : (c :: a).length + i = (a.length + i) + 1 := by simp; omega
      rw [hl, List.cons_append, writeRegion_cons_succ, ih, List.cons_append]

theorem xorRegion_append_left (a b : List Nat) (i : Nat) (xs : List Nat)
    (h : i + xs.length ≤ a.length) :
    xorRegion (a ++ b) i xs = xorRegion a i xs ++ b := by
  induction a generalizing i xs with
  | nil =>
    cases xs with
    | nil => rw [xorRegion_nil_right, xorRegion_nil_right]
    | cons x xs => simp at h
  | cons c a ih =>
    cases xs with
    | nil => rw [xorRegion_nil_right, xorRegion_nil_right]
    | cons x xs =>
      cases i with
      | zero =>
        rw [List.cons_append, xorRegion_cons_zero, xorRegion_cons_zero,
            ih 0 xs (by simp at h ⊢; omega), List.cons_append]
      | succ i =>
        rw [List.cons_append, xorRegion_cons_succ, xorRegion_cons_succ,
            ih i (x :: xs) (by simp at h ⊢; omega), List.cons_append]

theorem zipWith_xor_self (l : List Nat) :
    List.zipWith (· ^^^ ·) l l = List.replicate l.length 0 := by
  induction l with
  | nil => rfl
  | cons b l ih => simp [ih, List.replicate_succ]

theorem zipWith_xor_cancel (a b : List Nat) (h : a.length = b.length) :
    List.zipWith (· ^^^ ·) a (List.zipWith (· ^^^ ·) a b) = b := by
  induction a generalizing b with
  | nil => cases b with | nil => rfl | cons x xs => simp at h
  | cons x a ih =>
    cases b with
    | nil => simp at h
    | cons y b =>
      simp only [List.zipWith_cons_cons, List.cons.injEq]
      refine ⟨?_, ih b (by simpa using h)⟩
      rw [← Nat.xor_assoc, Nat.xor_self, Nat.zero_xor]

/-! Bitwise facts used for the PSS top-byte masking. -/

theorem and_mask_and (a m : Nat) : (a &&& m) &&& m = a &&& m := by
  rw [Nat.land_assoc, Nat.and_self]

theorem xor_and_mask (a b m : Nat) : (a ^^^ (b &&& m)) &&& m = (a ^^^ b) &&& m := by
  rw [Nat.and_xor_distrib_right, Nat.and_xor_distrib_right, Nat.land_assoc, Nat.and_self]

theorem and_127_and_128 (a : Nat) : (a &&& 127) &&& 128 = 0 := by
  have h : (127 : Nat) &&& 128 = 0 := by decide
  rw [Nat.land_assoc, h, Nat.and_zero]

theorem and_127_of_lt (b : Nat) (h : b < 128) : b &&& 127 = b := by
  have h7 : (127 : Nat) = 2 ^ 7 - 1 := rfl
  rw [h7, Nat.and_pow_two_sub_one_eq_mod, Nat.mod_eq_of_lt h]

/-! Arithmetic facts about the ctr_max computation of mgf1. -/

theorem ctrMax_eq_of_not_dvd (maskLen d : Nat) (hd : 0 < d) (hnd : ¬ d ∣ maskLen) :
    (maskLen - 1) / d = maskLen / d := by
  have h0 : maskLen ≠ 0 := by rintro rfl; exact hnd (Dvd.intro 0 rfl)
  have h3 : maskLen % d ≠ 0 := fun hc => hnd (Nat.dvd_of_mod_eq_zero hc)
  have h2 := Nat.div_add_mod maskLen d
  have h1 : maskLen - 1 = (maskLen % d - 1) + d * (maskLen / d) := by omega
  rw [h1, Nat.add_mul_div_left _ _ hd,
      Nat.div_eq_of_lt (by have := Nat.mod_lt maskLen hd; omega), Nat.zero_add]

theorem sub_ctrMax_of_not_dvd (maskLen d : Nat) (hd : 0 < d) (hnd : ¬ d ∣ maskLen) :
    maskLen - (maskLen - 1) / d * d = maskLen % d := by
  rw [ctrMax_eq_of_not_dvd maskLen d hd hnd]
  have h2 := Nat.div_add_mod maskLen d
  have h3 : maskLen / d * d = d * (maskLen / d) := Nat.mul_comm _ _
  omega

theorem sub_ctrMax_of_dvd (maskLen d : Nat) (h0 : maskLen ≠ 0) (hd : 0 < d)
    (hdvd : d ∣ maskLen) : maskLen - (maskLen - 1) / d * d = d := by
  obtain ⟨q, hq⟩ := hdvd
  obtain ⟨e, rfl⟩ : ∃ e, q = e + 1 := by
    refine ⟨q - 1, ?_⟩
    rcases Nat.eq_zero_or_pos q with h | h
    · subst h; simp at hq; omega
    · omega
  have hms : d * (e + 1) = d * e + d := Nat.mul_succ d e
  have hctrEq : (maskLen - 1) / d = e := by
    have h1 : maskLen - 1 = (d - 1) + d * e := by omega
    rw [h1, Nat.add_mul_div_left _ _ hd, Nat.div_eq_of_lt (by omega), Nat.zero_add]
  rw [hctrEq]
  have h4 : e * d = d * e := Nat.mul_comm _ _
  omega

/-! Helper lemmas about MGF1. -/

theorem mgf1Blocks_length (alg : DigestAlg) (seed : List Nat) (k : Nat) :
    (mgf1Blocks alg seed k).length = k * alg.output_len := by
  induction k with
  | zero => simp [mgf1Blocks]
  | succ k ih => simp [mgf1Blocks, ih, alg.hash_len, Nat.succ_mul]

theorem mgf1Blocks_take (alg : DigestAlg) (seed : List Nat) (k : Nat) (h : 0 < k) :
    (mgf1Blocks alg seed k).take alg.output_len = alg.hash (seed ++ be32 0) := by
  induction k with
  | zero => omega
  | succ k ih =>
    cases Nat.eq_zero_or_pos k with
    | inl h0 =>
      subst h0
      simp [mgf1Blocks, List.take_of_length_le, Nat.le_of_eq (alg.hash_len _)]
    | inr hpos =>
      rw [mgf1Blocks, List.take_append_of_le_length, ih hpos]
      rw [mgf1Blocks_length]
      exact Nat.le_mul_of_pos_left _ hpos

theorem mgf1_ok_of_not_dvd (alg : DigestAlg) (seed : List Nat) (maskLen : Nat)
    (hd : 0 < alg.output_len) (hnd : ¬ alg.output_len ∣ maskLen)
    (hctr : (maskLen - 1) / alg.output_len ≤ 4294967295) :
    mgf1 alg seed maskLen =
      .ok (mgf1Blocks alg seed ((maskLen - 1) / alg.output_len) ++
           (alg.hash (seed ++ be32 ((maskLen - 1) / alg.output_len))).take
             (maskLen % alg.output_len)) := by
  have h0 : maskLen ≠ 0 := by rintro rfl; exact hnd (Dvd.intro 0 rfl)
  have hsub := sub_ctrMax_of_not_dvd maskLen alg.output_len hd hnd
  rw [mgf1, if_neg h0, if_neg (Nat.pos_iff_ne_zero.mp hd), if_neg (by omega), if_neg]
  rw [hsub]
  exact fun hc => hc rfl

theorem mgf1_panic_of_dvd (alg : DigestAlg) (seed : List Nat) (maskLen : Nat)
    (h0 : maskLen ≠ 0) (hdvd : alg.output_len ∣ maskLen) :
    mgf1 alg seed maskLen = .panic := by
  rw [mgf1, if_neg h0]
  by_cases hd : alg.output_len = 0
  · rw [if_pos hd]
  · rw [if_neg hd]
    by_cases hctr : 4294967295 < (maskLen - 1) / alg.output_len
    · rw [if_pos hctr]
    · rw [if_neg hctr, if_pos]
      have hsub := sub_ctrMax_of_dvd maskLen alg.output_len h0 (Nat.pos_of_ne_zero hd) hdvd
      have hmodz : maskLen % alg.output_len = 0 := by
        obtain ⟨q, hq⟩ := hdvd
        rw [hq]
        exact Nat.mul_mod_right _ _
      omega

theorem mgf1_length (alg : DigestAlg) (seed : List Nat) (maskLen : Nat) (mask : List Nat)
    (h : mgf1 alg seed maskLen = .ok mask) : mask.length = maskLen := by
  rw [mgf1] at h
  by_cases h0 : maskLen = 0
  · rw [if_pos h0] at h; cases h
  rw [if_neg h0] at h
  by_cases hd : alg.output_len = 0
  · rw [if_pos hd] at h; cases h
  rw [if_neg hd] at h
  by_cases hctr : 4294967295 < (maskLen - 1) / alg.output_len
  · rw [if_pos hctr] at h; cases h
  rw [if_neg hctr] at h
  by_cases hsub : maskLen - (maskLen - 1) / alg.output_len * alg.output_len ≠
      maskLen % alg.output_len
  · rw [if_pos hsub] at h; cases h
  rw [if_neg hsub] at h
  cases h
  rw [List.length_append, mgf1Blocks_length, List.length_take, alg.hash_len]
  have hrd : maskLen % alg.output_len < alg.output_len :=
    Nat.mod_lt _ (Nat.pos_of_ne_zero hd)
  have hle : (maskLen - 1) / alg.output_len * alg.output_len ≤ maskLen - 1 :=
    Nat.div_mul_le_self _ _
  omega

/-! Helper lemmas about the PKCS#1 0xff run parser. -/

theorem ffRun_replicate (k : Nat) (r : List Nat) :
    ffRun (List.replicate k 255 ++ 0 :: r) = some (k, r) := by
  induction k with
  | zero => simp [ffRun]
  | succ k ih => simp [List.replicate_succ, ffRun, ih]

theorem ffRun_eq_some (xs : List Nat) (k : Nat) (r : List Nat)
    (h : ffRun xs = some (k, r)) : xs = List.replicate k 255 ++ 0 :: r := by
  induction xs generalizing k r with
  | nil => cases h
  | cons b rest ih =>
    rw [ffRun] at h
    by_cases hb : b = 255
    · rw [if_pos hb] at h
      cases hf : ffRun rest with
      | none => rw [hf] at h; cases h
      | some p =>
        rw [hf] at h
        cases h
        subst hb
        have := ih p.1 p.2 hf
        rw [List.replicate_succ, List.cons_append, this]
    · rw [if_neg hb] at h
      by_cases hz : b = 0
      · rw [if_pos hz] at h
        cases h
        rw [hz]
        rfl
      · rw [if_neg hz] at h; cases h

/-! Characterization of PKCS#1 encode and verify. -/

theorem PKCS1.encode_ok (p : PKCS1) (dbg : Bool) (msg out : List Nat) (bitLen : Nat)
    (rng : RandomSource) (hbl : out.length * 8 = bitLen)
    (hlen : p.digestInfo.length + p.digest_alg.output_len + 11 ≤ out.length) :
    p.encode dbg msg out bitLen rng =
      .ok ([0, 1] ++
           List.replicate (out.length - (p.digestInfo.length + p.digest_alg.output_len) - 3)
             255 ++ [0] ++ p.digestInfo ++ p.digest_alg.hash msg) := by
  simp only [PKCS1.encode]
  rw [if_neg (by omega), if_neg (by rintro ⟨_, hc⟩; omega), if_neg (by omega)]

theorem PKCS1.verify_ok_or_unspec (p : PKCS1) (msg encoded : List Nat) (bl : Nat) :
    p.verify msg encoded bl = .ok () ∨ p.verify msg encoded bl = .unspecified := by
  cases encoded with
  | nil => exact Or.inr rfl
  | cons b0 t =>
    cases t with
    | nil => exact Or.inr rfl
    | cons b1 rest =>
      simp only [PKCS1.verify]
      by_cases h01 : b0 ≠ 0 ∨ b1 ≠ 1
      · rw [if_pos h01]; exact Or.inr rfl
      · rw [if_neg h01]
        cases hf : ffRun rest with
        | none => simp only [hf]; exact Or.inr trivial
        | some pr =>
          obtain ⟨psLen, rest2⟩ := pr
          simp only [hf]
          split_ifs <;> first | exact Or.inl rfl | exact Or.inr rfl

theorem PKCS1.verify_ok_iff (p : PKCS1) (msg encoded : List Nat) (bl : Nat) :
    p.verify msg encoded bl = .ok () ↔
      ∃ k, 8 ≤ k ∧
        encoded =
          0 :: 1 :: (List.replicate k 255 ++ 0 :: (p.digestInfo ++ p.digest_alg.hash msg)) := by
  constructor
  · intro h
    cases encoded with
    | nil => cases h
    | cons b0 t =>
      cases t with
      | nil => cases h
      | cons b1 rest =>
        simp only [PKCS1.verify] at h
        by_cases h01 : b0 ≠ 0 ∨ b1 ≠ 1
        · rw [if_pos h01] at h; cases h
        rw [if_neg h01] at h
        push_neg at h01
        obtain ⟨hb0, hb1⟩ := h01
        cases hf : ffRun rest with
        | none => rw [hf] at h; cases h
        | some pr =>
          obtain ⟨psLen, rest2⟩ := pr
          rw [hf] at h
          simp only [] at h
          by_cases h8 : psLen < 8
          · rw [if_pos h8] at h; cases h
          rw [if_neg h8] at h
          by_cases hl1 : rest2.length < p.digestInfo.length
          · rw [if_pos hl1] at h; cases h
          rw [if_neg hl1] at h
          by_cases he1 : rest2.take p.digestInfo.length ≠ p.digestInfo
          · rw [if_pos he1] at h; cases h
          rw [if_neg he1] at h
          push_neg at he1
          by_cases hl2 : (rest2.drop p.digestInfo.length).length < p.digest_alg.output_len
          · rw [if_pos hl2] at h; cases h
          rw [if_neg hl2] at h
          by_cases he2 : (rest2.drop p.digestInfo.length).take p.digest_alg.output_len ≠
              p.digest_alg.hash msg
          · rw [if_pos he2] at h; cases h
          rw [if_neg he2] at h
          push_neg at he2
          by_cases he3 : (rest2.drop p.digestInfo.length).drop p.digest_alg.output_len ≠ []
          · rw [if_pos he3] at h; cases h
          push_neg at he3
          refine ⟨psLen, by omega, ?_⟩
          subst hb0; subst hb1
          have hrest := ffRun_eq_some rest psLen rest2 hf
          have hrest2 : rest2 = p.digestInfo ++ p.digest_alg.hash msg := by
            have hsplit := (List.take_append_drop p.digestInfo.length rest2).symm
            rw [he1] at hsplit
            have hsplit2 :=
              (List.take_append_drop p.digest_alg.output_len
                (rest2.drop p.digestInfo.length)).symm
            rw [he2, he3, List.append_nil] at hsplit2
            rw [hsplit, hsplit2]
          rw [hrest, hrest2]
  · rintro ⟨k, hk, rfl⟩
    simp only [PKCS1.verify]
    rw [if_neg (by simp)]
    rw [ffRun_replicate]
    simp only []
    rw [if_neg (by omega)]
    have hdrop : (p.digestInfo ++ p.digest_alg.hash msg).drop p.digestInfo.length =
        p.digest_alg.hash msg := List.drop_left _ _
    rw [if_neg (by simp only [List.length_append]; omega)]
    rw [if_neg (by simp [List.take_left])]
    rw [hdrop]
    rw [if_neg (by rw [p.digest_alg.hash_len]; omega)]
    rw [if_neg (by rw [← p.digest_alg.hash_len msg, List.take_length]; simp)]
    rw [if_neg (by rw [← p.digest_alg.hash_len msg, List.drop_length]; simp)]

theorem pkcs1_encode_verify (p : PKCS1) (dbg : Bool) (msg out : List Nat) (bitLen : Nat)
    (rng : RandomSource) (buf : List Nat)
    (hbl : bitLen = out.length * 8)
    (hlen : p.digestInfo.length + p.digest_alg.output_len + 11 ≤ out.length)
    (henc : p.encode dbg msg out bitLen rng = .ok buf) :
    p.verify msg buf bitLen = .ok () := by
  rw [PKCS1.encode_ok p dbg msg out bitLen rng hbl.symm hlen] at henc
  cases henc
  rw [PKCS1.verify_ok_iff]
  refine ⟨out.length - (p.digestInfo.length + p.digest_alg.output_len) - 3, by omega, ?_⟩
  simp

/-! Helper lemmas about getD. -/

theorem getD_append_left (a b : List Nat) (i dflt : Nat) (h : i < a.length) :
    (a ++ b).getD i dflt = a.getD i dflt := by
  simp [List.getD, List.getElem?_append_left h]

theorem getD_append_right (a b : List Nat) (i dflt : Nat) :
    (a ++ b).getD (a.length + i) dflt = b.getD i dflt := by
  simp [List.getD, List.getElem?_append_right (Nat.le_add_right _ _)]

theorem getD_set_zero (l : List Nat) (v dflt : Nat) (h : 0 < l.length) :
    (l.set 0 v).getD 0 dflt = v := by
  cases l with
  | nil => simp at h
  | cons x xs => rfl

theorem getD_replicate (n c i dflt : Nat) (h : i < n) :
    (List.replicate n c).getD i dflt = c := by
  rw [List.getD_eq_getElem?_getD, List.getElem?_replicate, if_pos h]
  rfl

theorem xor_xor_cancel (a b : Nat) : a ^^^ (a ^^^ b) = b := by
  rw [← Nat.xor_assoc, Nat.xor_self, Nat.zero_xor]

/-! Length of the PSS masked data block. -/

theorem length_pssMaskedDb (mask salt : List Nat) (padLen : Nat) :
    (pssMaskedDb mask salt padLen).length = mask.length := by
  simp [pssMaskedDb, List.length_set, length_xorRegion]

/-- The top byte mask is 0x7f whenever bit_len is a multiple of 8, so one
excess bit is demanded to be clear. -/
theorem pssTopByteMask_of_dvd (bitLen : Nat) (h : bitLen % 8 = 0) :
    pssTopByteMask bitLen = 127 := by
  rw [pssTopByteMask, h]
  decide

/-- Unmasking: applying steps 7, 8 and 9 of PSS::verify (with top mask
0x7f) to the masked data block built by PSS::encode recovers the logical
data block PS || 0x01 || salt. -/
theorem pss_unmask (mask salt : List Nat) (padLen : Nat)
    (h : mask.length = padLen + 1 + salt.length) :
    (xorRegion mask 0 (pssMaskedDb mask salt padLen)).set 0
      ((xorRegion mask 0 (pssMaskedDb mask salt padLen)).getD 0 0 &&& 127)
      = List.replicate padLen 0 ++ 1 :: salt := by
  obtain ⟨m1, rest, hm1len, hrest⟩ :
      ∃ m1 rest, m1.length = padLen ∧ mask = m1 ++ rest := by
    refine ⟨mask.take padLen, mask.drop padLen, ?_, (List.take_append_drop _ _).symm⟩
    rw [List.length_take]
    omega
  obtain ⟨mp, m2, hrest2⟩ : ∃ mp m2, rest = mp :: m2 := by
    cases rest with
    | nil =>
      exfalso
      rw [hrest] at h
      simp at h
      omega
    | cons mp m2 => exact ⟨mp, m2, rfl⟩
  subst hrest2
  subst hrest
  have hm2len : m2.length = salt.length := by
    rw [List.length_append, List.length_cons] at h
    omega
  have hT : pssMaskedDb (m1 ++ mp :: m2) salt padLen =
      (m1 ++ (mp ^^^ 1) :: List.zipWith (· ^^^ ·) m2 salt).set 0
        ((m1 ++ (mp ^^^ 1) :: List.zipWith (· ^^^ ·) m2 salt).getD 0 0 &&& 127) := by
    rw [pssMaskedDb]
    have s1 : xorRegion (m1 ++ mp :: m2) padLen [1] = m1 ++ (mp ^^^ 1) :: m2 := by
      have := xorRegion_append_ge m1 (mp :: m2) 0 [1]
      rw [Nat.add_zero, hm1len] at this
      rw [this, xorRegion_cons_zero, xorRegion_nil_right]
    have s2 : xorRegion (m1 ++ (mp ^^^ 1) :: m2) (padLen + 1) salt =
        m1 ++ (mp ^^^ 1) :: List.zipWith (· ^^^ ·) m2 salt := by
      have hsplit : m1 ++ (mp ^^^ 1) :: m2 = (m1 ++ [mp ^^^ 1]) ++ m2 := by simp
      have hlen2 : (m1 ++ [mp ^^^ 1]).length = padLen + 1 := by
        rw [List.length_append, hm1len]
        rfl
      rw [hsplit]
      have := xorRegion_append_ge (m1 ++ [mp ^^^ 1]) m2 0 salt
      rw [Nat.add_zero, hlen2] at this
      rw [this, xorRegion_zero_eq, ← hm2len, List.drop_length, List.append_nil]
      simp
    rw [s1, s2]
  rw [hT]
  cases hp : padLen with
  | zero =>
    subst hp
    have hm1nil : m1 = [] := List.length_eq_zero.mp hm1len
    subst hm1nil
    simp only [List.nil_append]
    rw [List.set_cons_zero]
    rw [show ((mp ^^^ 1) :: List.zipWith (· ^^^ ·) m2 salt).getD 0 0 = mp ^^^ 1 from rfl]
    rw [xorRegion_zero_eq]
    simp only [List.length_cons, List.zipWith_cons_cons]
    have hlz : (List.zipWith (· ^^^ ·) m2 salt).length = m2.length := by
      rw [List.length_zipWith]
      omega
    have hdrop : List.drop ((List.zipWith (· ^^^ ·) m2 salt).length + 1) (mp :: m2) = [] := by
      rw [hlz, show m2.length + 1 = (mp :: m2).length from rfl, List.drop_length]
    rw [hdrop, List.append_nil]
    rw [zipWith_xor_cancel m2 salt hm2len]
    rw [List.set_cons_zero]
    rw [show ((mp ^^^ ((mp ^^^ 1) &&& 127)) :: salt).getD 0 0 =
        mp ^^^ ((mp ^^^ 1) &&& 127) from rfl]
    rw [xor_and_mask, xor_xor_cancel]
    rfl
  | succ p =>
    subst hp
    obtain ⟨m0, m1r, rfl⟩ : ∃ m0 m1r, m1 = m0 :: m1r := by
      cases m1 with
      | nil => simp at hm1len
      | cons m0 m1r => exact ⟨m0, m1r, rfl⟩
    have hm1rlen : m1r.length = p := by simpa using hm1len
    simp only [List.cons_append, List.set_cons_zero]
    rw [show ((m0 :: (m1r ++ (mp ^^^ 1) :: List.zipWith (· ^^^ ·) m2 salt)).getD 0 0) =
        m0 from rfl]
    rw [xorRegion_zero_eq]
    have hlenmdb : ((m0 &&& 127) :: (m1r ++ (mp ^^^ 1) ::
        List.zipWith (· ^^^ ·) m2 salt)).length = (m0 :: (m1r ++ mp :: m2)).length := by
      simp [List.length_zipWith]
      omega
    rw [hlenmdb, List.drop_length, List.append_nil]
    rw [List.zipWith_cons_cons]
    rw [List.zipWith_append _ _ _ _ _ rfl]
    rw [List.zipWith_cons_cons]
    rw [zipWith_xor_cancel m2 salt hm2len, zipWith_xor_self]
    rw [List.set_cons_zero]
    rw [show ((m0 ^^^ (m0 &&& 127)) :: (List.replicate m1r.length 0 ++
        (mp ^^^ (mp ^^^ 1)) :: salt)).getD 0 0 = m0 ^^^ (m0 &&& 127) from rfl]
    rw [xor_and_mask, Nat.xor_self, xor_xor_cancel]
    rw [hm1rlen]
    rw [show (0 : Nat) &&& 127 = 0 from rfl]
    rw [List.replicate_succ, List.cons_append]

theorem pssMaskedDb_def (mask salt : List Nat) (padLen : Nat) :
    pssMaskedDb mask salt padLen =
      (xorRegion (xorRegion mask padLen [1]) (padLen + 1) salt).set 0
        ((xorRegion (xorRegion mask padLen [1]) (padLen + 1) salt).getD 0 0 &&& 127) := rfl

theorem writeRegion_append_exact (a b : List Nat) (i : Nat) (xs : List Nat)
    (h : i = a.length) :
    writeRegion (a ++ b) i xs = a ++ writeRegion b 0 xs := by
  subst h
  have := writeRegion_append_ge a b 0 xs
  rwa [Nat.add_zero] at this

/-- The in-place buffer construction of PSS::encode (steps 9, 7, 8, 10, 11
and 12) produces masked_db || h_hash || 0xbc. -/
theorem pss_build_shape (out mask salt hH : List Nat) (d : Nat)
    (hm : mask.length = out.length - d - 1)
    (hs : salt.length = d) (hh : hH.length = d)
    (hlen : 2 + 2 * d ≤ out.length) :
    writeRegion
      (writeRegion
        ((xorRegion (xorRegion (writeRegion out 0 mask) (out.length - d - 1 - d - 1) [1])
            (out.length - d - 1 - d - 1 + 1) salt).set 0
          ((xorRegion (xorRegion (writeRegion out 0 mask) (out.length - d - 1 - d - 1) [1])
              (out.length - d - 1 - d - 1 + 1) salt).getD 0 0 &&& 127))
        (out.length - d - 1) hH)
      (out.length - d - 1 + d) [188]
    = pssMaskedDb mask salt (out.length - d - 1 - d - 1) ++ hH ++ [188] := by
  have hA : writeRegion out 0 mask = mask ++ out.drop (out.length - d - 1) := by
    rw [writeRegion_zero_eq, List.take_of_length_le (by omega), hm]
  have hrestlen : (out.drop (out.length - d - 1)).length = d + 1 := by
    rw [List.length_drop]
    omega
  rw [hA]
  generalize hrest : out.drop (out.length - d - 1) = rest at *
  rw [xorRegion_append_left _ _ _ _ (by rw [hm]; simp; omega)]
  rw [xorRegion_append_left _ _ _ _
    (by rw [length_xorRegion, hm, hs]; omega)]
  have hTlen : (xorRegion (xorRegion mask (out.length - d - 1 - d - 1) [1])
      (out.length - d - 1 - d - 1 + 1) salt).length = out.length - d - 1 := by
    rw [length_xorRegion, length_xorRegion, hm]
  rw [getD_append_left _ _ _ _ (by rw [hTlen]; omega)]
  rw [List.set_append_left _ _ (by rw [hTlen]; omega)]
  rw [← pssMaskedDb_def]
  have hClen : (pssMaskedDb mask salt (out.length - d - 1 - d - 1)).length =
      out.length - d - 1 := by
    rw [length_pssMaskedDb, hm]
  rw [writeRegion_append_exact _ _ _ _ (by rw [hClen])]
  rw [writeRegion_zero_eq, List.take_of_length_le (by rw [hh, hrestlen]; omega), hh]
  obtain ⟨w, hw⟩ : ∃ w, rest.drop d = [w] := by
    apply List.length_eq_one.mp
    rw [List.length_drop, hrestlen]
    omega
  rw [hw]
  rw [show pssMaskedDb mask salt (out.length - d - 1 - d - 1) ++ (hH ++ [w]) =
      (pssMaskedDb mask salt (out.length - d - 1 - d - 1) ++ hH) ++ [w] from by simp]
  rw [writeRegion_append_exact _ _ _ _ (by rw [List.length_append, hClen, hh])]
  rw [show writeRegion [w] 0 [188] = [188] from rfl]

/-- Elimination for a successful PSS::encode: the salt was drawn, mgf1
succeeded, the preconditions held, and the output is
masked_db || h_hash || 0xbc. -/
theorem PSS.encode_ok_elim (ps : PSS) (dbg : Bool) (msg out : List Nat) (bitLen : Nat)
    (rng : RandomSource) (buf : List Nat)
    (h : ps.encode dbg msg out bitLen rng = .ok buf) :
    ∃ salt mask,
      rng.fill ps.digest_alg.output_len = some salt ∧
      salt.length = ps.digest_alg.output_len ∧
      mgf1 ps.digest_alg
        (ps.digest_alg.hash (PSS_PREFIX_ZEROS ++ ps.digest_alg.hash msg ++ salt))
        (out.length - ps.digest_alg.output_len - 1) = .ok mask ∧
      mask.length = out.length - ps.digest_alg.output_len - 1 ∧
      bitLen = out.length * 8 ∧
      2 + 2 * ps.digest_alg.output_len ≤ out.length ∧
      ps.digest_alg.output_len ≤ 64 ∧
      (dbg = true → out.length ≤ 1024) ∧
      buf = pssMaskedDb mask salt
              (out.length - ps.digest_alg.output_len - 1 - ps.digest_alg.output_len - 1) ++
            ps.digest_alg.hash (PSS_PREFIX_ZEROS ++ ps.digest_alg.hash msg ++ salt) ++
            [188] := by
  simp only [PSS.encode] at h
  by_cases hmax : dbg ∧ MAX_OUTPUT_LEN < out.length
  · rw [if_pos hmax] at h; cases h
  rw [if_neg hmax] at h
  by_cases hbl : bitLen ≠ out.length * 8
  · rw [if_pos hbl] at h; cases h
  rw [if_neg hbl] at h
  push_neg at hbl
  by_cases hem : out.length < 2 + 2 * ps.digest_alg.output_len
  · rw [if_pos hem] at h; cases h
  rw [if_neg hem] at h
  by_cases hsalt : MAX_SALT_LEN < ps.digest_alg.output_len
  · rw [if_pos hsalt] at h; cases h
  rw [if_neg hsalt] at h
  cases hf : rng.fill ps.digest_alg.output_len with
  | none => rw [hf] at h; cases h
  | some salt =>
    rw [hf] at h
    simp only [] at h
    cases hmg : mgf1 ps.digest_alg
        (ps.digest_alg.hash (PSS_PREFIX_ZEROS ++ ps.digest_alg.hash msg ++ salt))
        (out.length - ps.digest_alg.output_len - 1) with
    | panic => rw [hmg] at h; cases h
    | unspecified => rw [hmg] at h; cases h
    | ok mask =>
      rw [hmg] at h
      simp only [] at h
      cases h
      have hslen := rng.fill_len _ _ hf
      have hmlen := mgf1_length _ _ _ _ hmg
      refine ⟨salt, mask, rfl, hslen, hmg, hmlen, hbl, by omega,
        by rw [MAX_SALT_LEN] at hsalt; omega, ?_, ?_⟩
      · intro hdbg
        rw [MAX_OUTPUT_LEN] at hmax
        rcases le_or_lt out.length 1024 with hle | hgt
        · exact hle
        · exact absurd ⟨hdbg, hgt⟩ hmax
      · exact pss_build_shape out mask salt _ _ hmlen hslen (ps.digest_alg.hash_len _)
          (by omega)

/-- Characterization of PSS::verify on a block masked_db || h_hash || trailer
of the expected length, when MGF1 succeeds on the recovered h_hash:
acceptance holds exactly when the trailer is 0xbc, no bit above the top
byte mask is set in the first byte, the recovered data block has zero
padding, the 0x01 separator, and a salt that makes the hash check match;
and the outcome is always Ok or the uniform Err(Unspecified). -/
theorem PSS.verify_char (ps : PSS) (msg mdb hH : List Nat) (z : Nat) (bitLen : Nat)
    (mask : List Nat)
    (h0 : bitLen ≠ 0)
    (hd : hH.length = ps.digest_alg.output_len)
    (hlen : mdb.length + ps.digest_alg.output_len + 1 = 1 + (bitLen - 1) / 8)
    (hem : 2 + 2 * ps.digest_alg.output_len ≤ mdb.length + ps.digest_alg.output_len + 1)
    (hdb : mdb.length ≤ 1024)
    (hmg : mgf1 ps.digest_alg hH mdb.length = .ok mask) :
    (ps.verify msg (mdb ++ hH ++ [z]) bitLen = .ok () ↔
      (z = 188 ∧
       mdb.getD 0 0 &&& (255 ^^^ pssTopByteMask bitLen) = 0 ∧
       (∀ i < mdb.length - ps.digest_alg.output_len - 1,
         (pssDb mask mdb bitLen).getD i 0 = 0) ∧
       (pssDb mask mdb bitLen).getD (mdb.length - ps.digest_alg.output_len - 1) 0 = 1 ∧
       hH = ps.digest_alg.hash (PSS_PREFIX_ZEROS ++ ps.digest_alg.hash msg ++
             (pssDb mask mdb bitLen).drop (mdb.length - ps.digest_alg.output_len)))) ∧
    (ps.verify msg (mdb ++ hH ++ [z]) bitLen = .ok () ∨
     ps.verify msg (mdb ++ hH ++ [z]) bitLen = .unspecified) := by
  have e1 : 1 + (bitLen - 1) / 8 = mdb.length + ps.digest_alg.output_len + 1 := hlen.symm
  have hblocklen : (mdb ++ hH ++ [z]).length = mdb.length + ps.digest_alg.output_len + 1 := by
    simp only [List.length_append, List.length_cons, List.length_nil, hd]
  have e2 : mdb.length + ps.digest_alg.output_len + 1 - ps.digest_alg.output_len - 1 =
      mdb.length := by omega
  have etake : (mdb ++ hH ++ [z]).take mdb.length = mdb := by
    rw [List.append_assoc, List.take_left]
  have ehH : ((mdb ++ hH ++ [z]).drop mdb.length).take ps.digest_alg.output_len = hH := by
    rw [List.append_assoc, List.drop_left, ← hd, List.take_left]
  have etr : (mdb ++ hH ++ [z]).getD (mdb.length + ps.digest_alg.output_len) 0 = z := by
    rw [List.append_assoc]
    rw [show mdb.length + ps.digest_alg.output_len =
        mdb.length + ps.digest_alg.output_len + 0 from rfl]
    rw [show mdb.length + ps.digest_alg.output_len + 0 =
        mdb.length + (ps.digest_alg.output_len + 0) from by omega]
    rw [getD_append_right mdb (hH ++ [z]) (ps.digest_alg.output_len + 0) 0]
    rw [← hd]
    rw [getD_append_right hH [z] 0 0]
    rfl
  have hv : ps.verify msg (mdb ++ hH ++ [z]) bitLen =
      (if z ≠ 188 then RsaResult.unspecified
       else if mdb.getD 0 0 &&& (255 ^^^ pssTopByteMask bitLen) ≠ 0 then .unspecified
       else if ¬ (List.range (mdb.length - ps.digest_alg.output_len - 1)).all
           (fun i => (pssDb mask mdb bitLen).getD i 0 = 0) then .unspecified
       else if (pssDb mask mdb bitLen).getD (mdb.length - ps.digest_alg.output_len - 1) 0
           ≠ 1 then .unspecified
       else if hH ≠ ps.digest_alg.hash (PSS_PREFIX_ZEROS ++ ps.digest_alg.hash msg ++
           (pssDb mask mdb bitLen).drop (mdb.length - ps.digest_alg.output_len)) then
         .unspecified
       else .ok ()) := by
    simp only [PSS.verify]
    rw [if_neg h0, e1]
    rw [if_neg (by rw [hblocklen]; exact fun hc => hc rfl)]
    rw [if_neg (by omega : ¬ mdb.length + ps.digest_alg.output_len + 1 <
        2 + 2 * ps.digest_alg.output_len)]
    rw [e2, etake, ehH, etr]
    rw [if_neg (by rw [MAX_OUTPUT_LEN]; omega : ¬ MAX_OUTPUT_LEN < mdb.length)]
    rw [hmg]
  rw [hv]
  have hall : ((List.range (mdb.length - ps.digest_alg.output_len - 1)).all
      (fun i => (pssDb mask mdb bitLen).getD i 0 = 0) = true) ↔
      ∀ i < mdb.length - ps.digest_alg.output_len - 1,
        (pssDb mask mdb bitLen).getD i 0 = 0 := by
    simp [List.all_eq_true, List.mem_range]
  constructor
  · by_cases h1 : z = 188
    · subst h1
      rw [if_neg (fun hc => hc rfl)]
      by_cases h2 : mdb.getD 0 0 &&& (255 ^^^ pssTopByteMask bitLen) ≠ 0
      · rw [if_pos h2]
        constructor
        · intro hc; cases hc
        · rintro ⟨_, hb, _⟩; exact absurd hb h2
      · rw [if_neg h2]
        by_cases h3 : ∀ i < mdb.length - ps.digest_alg.output_len - 1,
            (pssDb mask mdb bitLen).getD i 0 = 0
        · rw [if_neg (not_not_intro (hall.mpr h3))]
          by_cases h4 : (pssDb mask mdb bitLen).getD
              (mdb.length - ps.digest_alg.output_len - 1) 0 = 1
          · rw [if_neg (fun hc => hc h4)]
            by_cases h5 : hH = ps.digest_alg.hash (PSS_PREFIX_ZEROS ++
                ps.digest_alg.hash msg ++
                (pssDb mask mdb bitLen).drop (mdb.length - ps.digest_alg.output_len))
            · rw [if_neg (fun hc => hc h5)]
              constructor
              · intro _
                refine ⟨rfl, by omega, h3, h4, h5⟩
              · intro _; rfl
            · rw [if_pos h5]
              constructor
              · intro hc; cases hc
              · rintro ⟨_, _, _, _, hc⟩; exact absurd hc h5
          · rw [if_pos h4]
            constructor
            · intro hc; cases hc
            · rintro ⟨_, _, _, hc, _⟩; exact absurd hc h4
        · rw [if_pos (show ¬ ((List.range (mdb.length - ps.digest_alg.output_len - 1)).all
              (fun i => (pssDb mask mdb bitLen).getD i 0 = 0) = true) from
              fun hc => h3 (hall.mp hc))]
          constructor
          · intro hc; cases hc
          · rintro ⟨_, _, hc3, _, _⟩; exact absurd hc3 h3
    · rw [if_pos h1]
      constructor
      · intro hc; cases hc
      · rintro ⟨hz, _⟩; exact absurd hz h1
  · split_ifs <;> first | exact Or.inl rfl | exact Or.inr rfl

theorem pssDb_def (mask mdb : List Nat) (bitLen : Nat) :
    pssDb mask mdb bitLen =
      (xorRegion mask 0 mdb).set 0
        ((xorRegion mask 0 mdb).getD 0 0 &&& pssTopByteMask bitLen) := rfl

/-- Round trip for PSS within the supported modulus range: a successful
encode yields a block that verify accepts. -/
theorem pss_encode_verify (ps : PSS) (dbg : Bool) (msg out : List Nat) (bitLen : Nat)
    (rng : RandomSource) (buf : List Nat)
    (hout : out.length ≤ 1024)
    (henc : ps.encode dbg msg out bitLen rng = .ok buf) :
    ps.verify msg buf bitLen = .ok () := by
  obtain ⟨salt, mask, hf, hslen, hmg, hmlen, hbl, hem, hd64, hdbg, hbuf⟩ :=
    PSS.encode_ok_elim ps dbg msg out bitLen rng buf henc
  subst hbuf
  have hmask127 : pssTopByteMask bitLen = 127 := by
    rw [hbl]
    exact pssTopByteMask_of_dvd _ (Nat.mul_mod_left _ _)
  have hmdbLen : (pssMaskedDb mask salt
      (out.length - ps.digest_alg.output_len - 1 - ps.digest_alg.output_len - 1)).length =
      out.length - ps.digest_alg.output_len - 1 := by
    rw [length_pssMaskedDb, hmlen]
  have hunmask := pss_unmask mask salt
    (out.length - ps.digest_alg.output_len - 1 - ps.digest_alg.output_len - 1)
    (by rw [hmlen, hslen]; omega)
  have hdbEq : pssDb mask (pssMaskedDb mask salt
      (out.length - ps.digest_alg.output_len - 1 - ps.digest_alg.output_len - 1)) bitLen =
      List.replicate
        (out.length - ps.digest_alg.output_len - 1 - ps.digest_alg.output_len - 1) 0 ++
      1 :: salt := by
    rw [pssDb_def, hmask127]
    exact hunmask
  refine ((PSS.verify_char ps msg _ _ 188 bitLen mask (by omega)
    (ps.digest_alg.hash_len _)
    (by rw [hmdbLen, hbl]; omega)
    (by rw [hmdbLen]; omega)
    (by rw [hmdbLen]; omega)
    (by rw [hmdbLen]; exact hmg)).1).mpr ⟨rfl, ?_, ?_, ?_, ?_⟩
  · rw [hmask127]
    rw [show (255 : Nat) ^^^ 127 = 128 from rfl]
    rw [pssMaskedDb]
    rw [getD_set_zero _ _ _ (by rw [length_xorRegion, length_xorRegion, hmlen]; omega)]
    exact and_127_and_128 _
  · intro i hi
    rw [hmdbLen] at hi
    rw [hdbEq]
    rw [getD_append_left _ _ _ _ (by rw [List.length_replicate]; omega)]
    exact getD_replicate _ _ _ _ (by omega)
  · rw [hdbEq, hmdbLen]
    have h2 := getD_append_right
      (List.replicate
        (out.length - ps.digest_alg.output_len - 1 - ps.digest_alg.output_len - 1) 0)
      (1 :: salt) 0 0
    rw [List.length_replicate, Nat.add_zero] at h2
    rw [h2]
    rfl
  · rw [hdbEq, hmdbLen]
    have hdr : (List.replicate
        (out.length - ps.digest_alg.output_len - 1 - ps.digest_alg.output_len - 1) 0 ++
        1 :: salt).drop
        (out.length - ps.digest_alg.output_len - 1 - ps.digest_alg.output_len) = salt := by
      have h3 := @List.drop_append Nat (List.replicate
        (out.length - ps.digest_alg.output_len - 1 - ps.digest_alg.output_len - 1) 0)
        (1 :: salt) 1
      rw [List.length_replicate] at h3
      rw [show out.length - ps.digest_alg.output_len - 1 - ps.digest_alg.output_len - 1 + 1 =
          out.length - ps.digest_alg.output_len - 1 - ps.digest_alg.output_len from by
        omega] at h3
      simpa using h3
    rw [hdr]

/-! Claim theorems. -/

/-- C1: Round-trip.  For every digest algorithm (any function with the
digest output-length contract, covering the supported SHA instances),
every message, and every valid modulus byte length with bit_len =
8 * out_len and out_len within the supported modulus range
(MAX_OUTPUT_LEN bytes), if PKCS#1 encode (with out_len at least
prefix_len + hash_len + 11) or PSS encode succeeds, then the corresponding
verify accepts the resulting buffer. -/
theorem C1_roundtrip_encode_verify (p : PKCS1) (ps : PSS) (dbg : Bool)
    (msg out : List Nat) (bitLen : Nat) (rng : RandomSource) (buf : List Nat)
    (hbl : bitLen = out.length * 8)
    (hmax : out.length ≤ MAX_OUTPUT_LEN) :
    (p.digestInfo.length + p.digest_alg.output_len + 11 ≤ out.length →
      p.encode dbg msg out bitLen rng = .ok buf →
      p.verify msg buf bitLen = .ok ()) ∧
    (ps.encode dbg msg out bitLen rng = .ok buf →
      ps.verify msg buf bitLen = .ok ()) := by
  constructor
  · intro hlen henc
    exact pkcs1_encode_verify p dbg msg out bitLen rng buf hbl hlen henc
  · intro henc
    refine pss_encode_verify ps dbg msg out bitLen rng buf ?_ henc
    rw [MAX_OUTPUT_LEN] at hmax
    exact hmax

/-- Witness for C1 at concrete instances (PKCS#1 with a 2-byte test digest
and a 1-byte DigestInfo, out_len 16; PSS with the same digest, out_len 8). -/
theorem C1_witness :
    PKCS1.verify ⟨algT2, [48]⟩ [1]
      [0, 1, 255, 255, 255, 255, 255, 255, 255, 255, 255, 255, 0, 48, 7, 9] 128 = .ok () ∧
    PSS.verify ⟨algT2⟩ [3] [7, 9, 6, 9, 7, 7, 9, 188] 64 = .ok () := by
  constructor
  · exact (C1_roundtrip_encode_verify ⟨algT2, [48]⟩ ⟨algT2⟩ false [1]
      (List.replicate 16 0) 128 zeroRng
      [0, 1, 255, 255, 255, 255, 255, 255, 255, 255, 255, 255, 0, 48, 7, 9]
      (by decide) (by decide)).1 (by decide) (by decide)
  · exact (C1_roundtrip_encode_verify ⟨algT2, [48]⟩ ⟨algT2⟩ false [3]
      (List.replicate 8 0) 64 zeroRng [7, 9, 6, 9, 7, 7, 9, 188]
      (by decide) (by decide)).2 (by decide)

/-- C2: the MGF1 code panics, instead of producing a mask, whenever the
requested mask length is a positive exact multiple of the digest output
length (the final copy_from_slice receives last_block_len = mask_len mod
digest_len = 0 bytes while a full block of the mask remains unwritten) and
when the mask length is 0 (mask.len() - 1 underflows); on other lengths it
produces the counter-ordered concatenation of hash blocks, as here for a
2-byte digest and mask length 3. -/
theorem C2_mgf1_panics_on_multiples :
    mgf1 algT2 [5] 4 = .panic ∧ mgf1 algT2 [5] 0 = .panic ∧
    mgf1 algT2 [5] 3 = .ok [7, 9, 7] ∧
    mgf1 algT2 [5] 3 =
      .ok (algT2.hash ([5] ++ be32 0) ++ (algT2.hash ([5] ++ be32 1)).take 1) := by
  refine ⟨by decide, by decide, by decide, by decide⟩

/-- C3 counterexample: with debug assertions disabled, PKCS#1 encode
returns success after writing only 4 bytes of 0xff padding (out_len 10,
digest_len 3, pad_len 4 < 8), refuting the claim that it always fails. -/
theorem C3_counterexample :
    PKCS1.encode ⟨algT2, [48]⟩ false [1] (List.replicate 10 0) 80 zeroRng =
      .ok [0, 1, 255, 255, 255, 255, 0, 48, 7, 9] := by
  decide

/-- C3 as amended: when out_len < prefix_len + hash_len + 11, encode
panics at the debug_assert! in builds with debug assertions; with them
disabled it panics below prefix_len + hash_len + 3 (pad_len underflow and
out-of-bounds writes) but silently returns success with an undersized 0xff
run of fewer than 8 bytes on the lengths in between. -/
theorem C3_undersized_padding (p : PKCS1) (msg out : List Nat) (bitLen : Nat)
    (rng : RandomSource)
    (hbl : bitLen = out.length * 8)
    (hlen : out.length < p.digestInfo.length + p.digest_alg.output_len + 11) :
    p.encode true msg out bitLen rng = .panic ∧
    (p.digestInfo.length + p.digest_alg.output_len + 3 ≤ out.length →
      p.encode false msg out bitLen rng =
        .ok ([0, 1] ++
             List.replicate
               (out.length - (p.digestInfo.length + p.digest_alg.output_len) - 3) 255 ++
             [0] ++ p.digestInfo ++ p.digest_alg.hash msg) ∧
      out.length - (p.digestInfo.length + p.digest_alg.output_len) - 3 < 8) := by
  constructor
  · simp only [PKCS1.encode]
    rw [if_neg (by omega), if_pos ⟨trivial, hlen⟩]
  · intro h3
    constructor
    · simp only [PKCS1.encode]
      rw [if_neg (by omega), if_neg (by rintro ⟨hc, _⟩; cases hc), if_neg (by omega)]
    · omega

/-- Witness for C3: the amended behaviour at out_len 10 with a 3-byte
digest_len (pad_len 4). -/
theorem C3_witness :
    PKCS1.encode ⟨algT2, [48]⟩ true [1] (List.replicate 10 0) 80 zeroRng = .panic ∧
    PKCS1.encode ⟨algT2, [48]⟩ false [1] (List.replicate 10 0) 80 zeroRng =
      .ok ([0, 1] ++ List.replicate 4 255 ++ [0] ++ [48] ++ algT2.hash [1]) := by
  have h := C3_undersized_padding ⟨algT2, [48]⟩ [1] (List.replicate 10 0) 80 zeroRng
    (by decide) (by decide)
  exact ⟨h.1, (h.2 (by decide)).1⟩

/-- C4: PKCS#1 encode layout.  For out_len at least prefix_len + hash_len
+ 11 and bit_len = 8 * out_len, encode succeeds and the buffer is
0x00 || 0x01 || 0xff * (out_len - prefix_len - hash_len - 3) || 0x00 ||
DigestInfo || Hash(msg); with a 32-byte digest, the 19-byte SHA-256
DigestInfo and out_len 256 this gives 202 bytes of 0xff. -/
theorem C4_pkcs1_encode_layout (p : PKCS1) (dbg : Bool) (msg out : List Nat)
    (bitLen : Nat) (rng : RandomSource)
    (hbl : bitLen = out.length * 8)
    (hlen : p.digestInfo.length + p.digest_alg.output_len + 11 ≤ out.length) :
    p.encode dbg msg out bitLen rng =
      .ok ([0, 1] ++
           List.replicate (out.length - (p.digestInfo.length + p.digest_alg.output_len) - 3)
             255 ++ [0] ++ p.digestInfo ++ p.digest_alg.hash msg) :=
  PKCS1.encode_ok p dbg msg out bitLen rng hbl.symm hlen

set_option maxRecDepth 40000 in
/-- Witness for C4: a 32-byte digest with the 19-byte SHA-256 DigestInfo,
out_len 256, message "test" (bytes 116, 101, 115, 116): 202 bytes of 0xff. -/
theorem C4_witness :
    PKCS1.encode ⟨algW32, SHA256_PKCS1_DIGESTINFO⟩ false [116, 101, 115, 116]
      (List.replicate 256 0) 2048 zeroRng =
      .ok ([0, 1] ++ List.replicate 202 255 ++ [0] ++ SHA256_PKCS1_DIGESTINFO ++
           List.replicate 32 5) := by
  have h := C4_pkcs1_encode_layout ⟨algW32, SHA256_PKCS1_DIGESTINFO⟩ false
    [116, 101, 115, 116] (List.replicate 256 0) 2048 zeroRng (by decide) (by decide)
  exact h

/-- C5: PKCS#1 verify accepts a block exactly when it is byte-for-byte
0x00 || 0x01 || a run of at least 8 bytes of 0xff || 0x00 || DigestInfo ||
Hash(msg) with no trailing bytes, and every rejection is the single
undifferentiated error. -/
theorem C5_pkcs1_verify_acceptance (p : PKCS1) (msg encoded : List Nat) (bl : Nat) :
    (p.verify msg encoded bl = .ok () ↔
      ∃ k, 8 ≤ k ∧
        encoded =
          0 :: 1 :: (List.replicate k 255 ++ 0 :: (p.digestInfo ++ p.digest_alg.hash msg))) ∧
    (p.verify msg encoded bl = .ok () ∨ p.verify msg encoded bl = .unspecified) :=
  ⟨PKCS1.verify_ok_iff p msg encoded bl, PKCS1.verify_ok_or_unspec p msg encoded bl⟩

/-- C6 counterexample: on a block of the expected length for bit_len 56
(em_len 7) with a 2-byte digest, db_len = 4 is a multiple of the digest
length, so after the trailer byte 0xbc is accepted the MGF1 call panics:
a block that the claim says must draw the uniform rejection error instead
crashes the verifier. -/
theorem C6_counterexample :
    PSS.verify ⟨algT2⟩ [1, 2] [128, 0, 0, 0, 7, 9, 188] 56 = .panic ∧
    (RsaResult.panic : RsaResult Unit) ≠ .unspecified := by
  refine ⟨by decide, by decide⟩

/-- C6 as amended: on blocks masked_db || h_hash || trailer of the
expected length with em_len ≥ 2·digest_len + 2, PROVIDED the MGF1 call on
the recovered h_hash succeeds (which requires db_len not to be a multiple
of the digest length and db_len ≤ 1024; otherwise verify panics), verify
accepts exactly when the trailer is 0xbc, no bit above the top-byte mask
is set in the first byte, the recovered DB has all-zero padding, the 0x01
separator, and a salt satisfying the final hash equation (so any altered
message or flipped bit that breaks one of these is rejected), and every
non-accepting outcome is the one uniform Err(Unspecified). -/
theorem C6_pss_verify_rejections (ps : PSS) (msg mdb hH : List Nat) (z bitLen : Nat)
    (mask : List Nat)
    (h0 : bitLen ≠ 0)
    (hd : hH.length = ps.digest_alg.output_len)
    (hlen : mdb.length + ps.digest_alg.output_len + 1 = 1 + (bitLen - 1) / 8)
    (hem : 2 + 2 * ps.digest_alg.output_len ≤ mdb.length + ps.digest_alg.output_len + 1)
    (hdb : mdb.length ≤ 1024)
    (hmg : mgf1 ps.digest_alg hH mdb.length = .ok mask) :
    (ps.verify msg (mdb ++ hH ++ [z]) bitLen = .ok () ↔
      (z = 188 ∧
       mdb.getD 0 0 &&& (255 ^^^ pssTopByteMask bitLen) = 0 ∧
       (∀ i < mdb.length - ps.digest_alg.output_len - 1,
         (pssDb mask mdb bitLen).getD i 0 = 0) ∧
       (pssDb mask mdb bitLen).getD (mdb.length - ps.digest_alg.output_len - 1) 0 = 1 ∧
       hH = ps.digest_alg.hash (PSS_PREFIX_ZEROS ++ ps.digest_alg.hash msg ++
             (pssDb mask mdb bitLen).drop (mdb.length - ps.digest_alg.output_len)))) ∧
    (ps.verify msg (mdb ++ hH ++ [z]) bitLen = .ok () ∨
     ps.verify msg (mdb ++ hH ++ [z]) bitLen = .unspecified) :=
  PSS.verify_char ps msg mdb hH z bitLen mask h0 hd hlen hem hdb hmg

/-- Witness for C6 at a concrete instance (2-byte zero digest, bit_len 48,
em_len 6): the verify outcome is Ok or the uniform error. -/
theorem C6_witness :
    PSS.verify ⟨algZ2⟩ [9] ([1, 4, 5] ++ [0, 0] ++ [188]) 48 = .ok () ∨
    PSS.verify ⟨algZ2⟩ [9] ([1, 4, 5] ++ [0, 0] ++ [188]) 48 = .unspecified :=
  (C6_pss_verify_rejections ⟨algZ2⟩ [9] [1, 4, 5] [0, 0] 188 48 [0, 0, 0]
    (by decide) (by decide) (by decide) (by decide) (by decide) (by decide)).2

/-- C7 counterexample: the failure PSS encode returns when the random
source cannot fill the salt is the same undifferentiated
Err(error::Unspecified) that the verification path returns on rejection
(error::Unspecified is the only error value of the crate), so it is not a
distinct, distinguishable entropy-unavailable error. -/
theorem C7_counterexample :
    PSS.encode ⟨algT2⟩ false [3] (List.replicate 8 0) 64 failRng = .unspecified ∧
    PSS.verify ⟨algT2⟩ [3] (List.replicate 8 0) 64 = .unspecified := by
  refine ⟨by decide, by decide⟩

/-- C7 as amended: when the fill call on the random source fails during PSS encode
(after the size checks pass), encode returns a failure, but that failure is
the same uniform Err(error::Unspecified) used for every other error in the
crate, not a distinct recoverable entropy error. -/
theorem C7_entropy_failure (ps : PSS) (dbg : Bool) (msg out : List Nat) (bitLen : Nat)
    (rng : RandomSource)
    (hbl : bitLen = out.length * 8)
    (hem : 2 + 2 * ps.digest_alg.output_len ≤ out.length)
    (hd64 : ps.digest_alg.output_len ≤ 64)
    (hdbg : dbg = true → out.length ≤ 1024)
    (hfill : rng.fill ps.digest_alg.output_len = none) :
    ps.encode dbg msg out bitLen rng = .unspecified := by
  simp only [PSS.encode]
  rw [if_neg (by rintro ⟨hdt, hc⟩; have := hdbg hdt; rw [MAX_OUTPUT_LEN] at hc; omega)]
  rw [if_neg (by omega)]
  rw [if_neg (by omega)]
  rw [if_neg (by rw [MAX_SALT_LEN]; omega)]
  rw [hfill]

/-- Witness for C7 at a concrete instance with a failing random source. -/
theorem C7_witness :
    PSS.encode ⟨algT2⟩ false [3] (List.replicate 8 0) 64 failRng = .unspecified :=
  C7_entropy_failure ⟨algT2⟩ false [3] (List.replicate 8 0) 64 failRng
    (by decide) (by decide) (by decide) (by intro h; cases h) (by decide)

/-- C8 counterexample: with bit_len 48, a multiple of 8, a block that
verify accepts is rejected once only the top bit of its first byte is set
(so verify does reject blocks merely for high bits), and encode clears the
top bit of its first output byte (masked first byte 255 XOR 1 = 254
becomes 126). -/
theorem C8_counterexample :
    PSS.verify ⟨algZ2⟩ [9] [1, 4, 5, 0, 0, 188] 48 = .ok () ∧
    PSS.verify ⟨algZ2⟩ [9] [129, 4, 5, 0, 0, 188] 48 = .unspecified ∧
    48 % 8 = 0 ∧
    PSS.encode ⟨alg255⟩ false [] (List.replicate 6 0) 48 zeroRng =
      .ok [126, 0, 255, 255, 0, 188] := by
  refine ⟨by decide, by decide, by decide, by decide⟩

/-- C8 as amended: the verify top byte mask is 0xff >> (1 + bit_len mod 8),
so when bit_len is a multiple of 8 there is ONE excess bit, not zero: the
mask is 0x7f, every successful encode output has the top bit of its first
byte clear (out[0] &= 0x7f is unconditional), and verify returns the
uniform error on any block whose first byte has the top bit set, once its
trailer/length/MGF1 stage is reachable. -/
theorem C8_top_byte_mask (bitLen : Nat) (h0 : bitLen ≠ 0) (h8 : bitLen % 8 = 0) :
    pssTopByteMask bitLen = 127 ∧
    (∀ (ps : PSS) (dbg : Bool) (msg out : List Nat) (bl2 : Nat) (rng : RandomSource)
       (buf : List Nat), ps.encode dbg msg out bl2 rng = .ok buf →
       buf.getD 0 0 &&& 128 = 0) ∧
    (∀ (ps : PSS) (msg mdb hH : List Nat) (z : Nat) (mask : List Nat),
       hH.length = ps.digest_alg.output_len →
       mdb.length + ps.digest_alg.output_len + 1 = 1 + (bitLen - 1) / 8 →
       2 + 2 * ps.digest_alg.output_len ≤ mdb.length + ps.digest_alg.output_len + 1 →
       mdb.length ≤ 1024 →
       mgf1 ps.digest_alg hH mdb.length = .ok mask →
       mdb.getD 0 0 &&& 128 ≠ 0 →
       ps.verify msg (mdb ++ hH ++ [z]) bitLen = .unspecified) := by
  refine ⟨pssTopByteMask_of_dvd bitLen h8, ?_, ?_⟩
  · intro ps dbg msg out bl2 rng buf henc
    obtain ⟨salt, mask, hf, hslen, hmg, hmlen, hbl, hem, hd64, hdbg, hbuf⟩ :=
      PSS.encode_ok_elim ps dbg msg out bl2 rng buf henc
    subst hbuf
    rw [getD_append_left _ _ _ _ (by
      rw [List.length_append, length_pssMaskedDb, hmlen]
      omega)]
    rw [getD_append_left _ _ _ _ (by rw [length_pssMaskedDb, hmlen]; omega)]
    rw [pssMaskedDb]
    rw [getD_set_zero _ _ _ (by rw [length_xorRegion, length_xorRegion, hmlen]; omega)]
    exact and_127_and_128 _
  · intro ps msg mdb hH z mask hd hlen hem hdb hmg hbit
    have hchar := PSS.verify_char ps msg mdb hH z bitLen mask h0 hd hlen hem hdb hmg
    rcases hchar.2 with hok | hun
    · exfalso
      obtain ⟨_, hb, _⟩ := hchar.1.mp hok
      rw [pssTopByteMask_of_dvd bitLen h8] at hb
      rw [show (255 : Nat) ^^^ 127 = 128 from rfl] at hb
      exact hbit hb
    · exact hun

/-- Witness for C8 at bit_len 48: the mask is 0x7f, a concrete encode
output has its top bit clear, and a concrete block with the top bit set is
rejected with the uniform error. -/
theorem C8_witness :
    pssTopByteMask 48 = 127 ∧
    [126, 0, 255, 255, 0, 188].getD 0 0 &&& 128 = 0 ∧
    PSS.verify ⟨algZ2⟩ [9] ([129, 4, 5] ++ [0, 0] ++ [188]) 48 = .unspecified := by
  refine ⟨(C8_top_byte_mask 48 (by decide) (by decide)).1, ?_, ?_⟩
  · exact (C8_top_byte_mask 48 (by decide) (by decide)).2.1 ⟨alg255⟩ false []
      (List.replicate 6 0) 48 zeroRng [126, 0, 255, 255, 0, 188] (by decide)
  · exact (C8_top_byte_mask 48 (by decide) (by decide)).2.2 ⟨algZ2⟩ [9] [129, 4, 5]
      [0, 0] 188 [0, 0, 0] (by decide) (by decide) (by decide) (by decide) (by decide)
      (by decide)

/-- C9: PKCS#1 encode is deterministic and consumes no randomness: for the
same message, scheme instance, bit length, and output buffer length,
the result is identical whatever the buffer contents or the random source
(the Rust parameter for the source is the unused binder). -/
theorem C9_pkcs1_encode_deterministic (p : PKCS1) (dbg : Bool) (msg out1 out2 : List Nat)
    (bitLen : Nat) (rng1 rng2 : RandomSource)
    (h : out1.length = out2.length) :
    p.encode dbg msg out1 bitLen rng1 = p.encode dbg msg out2 bitLen rng2 := by
  simp only [PKCS1.encode, h]

/-- Witness for C9: different buffer contents and different random sources,
identical results. -/
theorem C9_witness :
    PKCS1.encode ⟨algT2, [48]⟩ false [1] (List.replicate 16 0) 128 zeroRng =
    PKCS1.encode ⟨algT2, [48]⟩ false [1] (List.replicate 16 1) 128 failRng :=
  C9_pkcs1_encode_deterministic ⟨algT2, [48]⟩ false [1] (List.replicate 16 0)
    (List.replicate 16 1) 128 zeroRng failRng (by decide)

/-- C10: PSS verify asserts encoded.len() = 1 + (bit_len - 1) / 8 before
any parsing; a block of any other length, or bit_len = 0 (whose
subtraction underflows), makes the call panic instead of returning the
uniform rejection error, so the uniform-rejection behaviour holds only
under that length precondition. -/
theorem C10_pss_verify_length_assert (ps : PSS) (msg encoded : List Nat) (bitLen : Nat)
    (h : bitLen = 0 ∨ encoded.length ≠ 1 + (bitLen - 1) / 8) :
    ps.verify msg encoded bitLen = .panic := by
  simp only [PSS.verify]
  by_cases h0 : bitLen = 0
  · rw [if_pos h0]
  · rcases h with h | hne
    · exact absurd h h0
    · rw [if_neg h0, if_pos hne]

/-- Witness for C10: a 3-byte block with bit_len 64 (expected length 8)
panics. -/
theorem C10_witness : PSS.verify ⟨algT2⟩ [] [1, 2, 3] 64 = .panic :=
  C10_pss_verify_length_assert ⟨algT2⟩ [] [1, 2, 3] 64 (Or.inr (by decide))
